import Mathlib

/-!
Verification of the NEC infrared decoder in `src/ir.py` of JGMEYER/rpi-ir-control.

Durations are modelled as exact rationals (the Python source uses floats for
pulse lengths in seconds); Python's unbounded integers are modelled as `Nat`
(with `Int` where Python's `~` produces negative values); a raised Python
exception is an `Except` error value.  Each definition mirrors the source
function of the same name.
-/

/-- `Pulse.NEC_SMALL_GAP` (ir.py:28): 562.5 µs in seconds. -/
def NEC_SMALL_GAP : ℚ := 562.5 * 0.000001

/-- `Pulse.NEC_LARGE_GAP` (ir.py:31): 1687.5 µs in seconds. -/
def NEC_LARGE_GAP : ℚ := 1687.5 * 0.000001

/-- `Pulse.GAP_TOLERANCE` (ir.py:34): 270 µs in seconds. -/
def GAP_TOLERANCE : ℚ := 270 * 0.000001

/-- `IR_Receiver.MIN_PULSE_READ` (ir.py:69): 50 µs in seconds. -/
def MIN_PULSE_READ : ℚ := 50 * 0.000001

/-- `IR_Receiver.MAX_PULSE_READ` (ir.py:72): 65000 µs in seconds. -/
def MAX_PULSE_READ : ℚ := 65000 * 0.000001

/-- A pulse read from the IR receiver (class `Pulse`, ir.py:12-38). -/
structure Pulse where
  length : ℚ
  is_space : Bool
deriving DecidableEq, Repr

/-- `Pulse.is_small_gap` (ir.py:43-46): `min <= self.length <= max` with
`min = NEC_SMALL_GAP - GAP_TOLERANCE`, `max = NEC_SMALL_GAP + GAP_TOLERANCE`. -/
def Pulse.is_small_gap (p : Pulse) : Bool :=
  decide (NEC_SMALL_GAP - GAP_TOLERANCE ≤ p.length ∧
    p.length ≤ NEC_SMALL_GAP + GAP_TOLERANCE)

/-- `Pulse.is_large_gap` (ir.py:48-51). -/
def Pulse.is_large_gap (p : Pulse) : Bool :=
  decide (NEC_LARGE_GAP - GAP_TOLERANCE ≤ p.length ∧
    p.length ≤ NEC_LARGE_GAP + GAP_TOLERANCE)

/-- The three-way pulse classification of the spec's PulseClassifier. -/
inductive PulseClass where
  | SmallGap
  | LargeGap
  | Neither
deriving DecidableEq, Repr

/-- The classifier realized by the source: `is_small_gap` is consulted first,
then `is_large_gap` (the priority order used at ir.py:165-168); `is_space`
plays no role in either method. -/
def classify (d : ℚ) : PulseClass :=
  if Pulse.is_small_gap ⟨d, true⟩ then .SmallGap
  else if Pulse.is_large_gap ⟨d, true⟩ then .LargeGap
  else .Neither

/-- The distinct Python exceptions raised by the decoder.  `indexError` models
a Python `IndexError` (e.g. `pulses[0]` on an empty list at ir.py:128); the
remaining constructors model the distinct `ValueError`s of ir.py. -/
inductive PyError where
  | indexError
  | malformedFraming
  | wrongFrameLength (actual : Nat)
  | alternationViolation (at_index : Nat)
  | invalidBurst (at_index : Nat)
  | invalidSpace (at_index : Nat)
  | patternMalformed
  | emptyBitString
  | checksumAddress
  | checksumCommand
deriving DecidableEq, Repr

/-- The alternation loop of `_sanitize_pulses` (ir.py:135-139): Python's
`for idx in range(0, len(pulses), 2)` checking `pulses[idx].is_space is True
and pulses[idx+1].is_space is False`.  `and` short-circuits, so on an
odd-length list the lone final pulse raises the alternation `ValueError` when
it is a burst and an `IndexError` (from `pulses[idx+1]`) when it is a space;
the caller only reaches this loop with 68 pulses. -/
def checkAlt : Nat → List Pulse → Except PyError Unit
  | _, [] => .ok ()
  | idx, [a] =>
    if a.is_space then .error .indexError else .error (.alternationViolation idx)
  | idx, a :: b :: rest =>
    if a.is_space = true ∧ b.is_space = false then checkAlt (idx + 2) rest
    else .error (.alternationViolation idx)

/-- The burst loop of `_sanitize_pulses` (ir.py:144-147): every even-indexed
pulse of the stripped list must be a small gap. -/
def checkBursts : Nat → List Pulse → Except PyError Unit
  | _, [] => .ok ()
  | idx, [a] =>
    if a.is_small_gap then .ok () else .error (.invalidBurst idx)
  | idx, a :: _ :: rest =>
    if a.is_small_gap then checkBursts (idx + 2) rest else .error (.invalidBurst idx)

/-- The space loop of `_sanitize_pulses` (ir.py:148-151): every odd-indexed
pulse of the stripped list must be a small or a large gap.  The accumulator
argument is the even index below the space being checked. -/
def checkSpaces : Nat → List Pulse → Except PyError Unit
  | _, [] => .ok ()
  | _, [_] => .ok ()
  | idx, _ :: b :: rest =>
    if b.is_small_gap ∨ b.is_large_gap then checkSpaces (idx + 2) rest
    else .error (.invalidSpace (idx + 1))

/-- `IR_Receiver._sanitize_pulses` (ir.py:122-152).  On the empty list Python
raises `IndexError` at `pulses[0]`.  The checks run in source order: leading
space, length 68, alternation, then on `pulses[3:-1]` bursts and spaces. -/
def sanitize_pulses (pulses : List Pulse) : Except PyError (List Pulse) :=
  match pulses with
  | [] => .error .indexError
  | p0 :: rest =>
    if p0.is_space ≠ true then .error .malformedFraming
    else if (p0 :: rest).length ≠ 68 then .error (.wrongFrameLength (p0 :: rest).length)
    else
      match checkAlt 0 (p0 :: rest) with
      | .error e => .error e
      | .ok _ =>
        match checkBursts 0 (((p0 :: rest).drop 3).dropLast) with
        | .error e => .error e
        | .ok _ =>
          match checkSpaces 0 (((p0 :: rest).drop 3).dropLast) with
          | .error e => .error e
          | .ok _ => .ok (((p0 :: rest).drop 3).dropLast)

/-- The bit loop of `_pulses_to_binary_message` (ir.py:162-170): every
odd-indexed pulse contributes `0` for a small gap and `1` for a large gap
(checked in that order), most significant bit first; otherwise the
`Pulse pattern malformed` `ValueError` is raised. -/
def extractBits : List Pulse → Except PyError (List Bool)
  | [] => .ok []
  | [_] => .ok []
  | _ :: b :: rest =>
    if b.is_small_gap then
      match extractBits rest with
      | .error e => .error e
      | .ok bs => .ok (false :: bs)
    else if b.is_large_gap then
      match extractBits rest with
      | .error e => .error e
      | .ok bs => .ok (true :: bs)
    else .error .patternMalformed

/-- `int(msg_str, 2)` (ir.py:172) on the binary string built MSB-first. -/
def bitsToNat (bits : List Bool) : Nat :=
  bits.foldl (fun acc b => 2 * acc + (if b then 1 else 0)) 0

/-- Python's unary `~` on unbounded integers. -/
def pyInvert (x : Int) : Int := -x - 1

/-- ir.py:175.  Python parses `msg_bin & 0xFF000000 >> (6 * 4)` as
`msg_bin & (0xFF000000 >> (6 * 4))` because `>>` binds tighter than `&`. -/
def address_of (msg_bin : Nat) : Nat := msg_bin &&& (0xFF000000 >>> (6 * 4))

/-- ir.py:176, same precedence. -/
def address_inverse_of (msg_bin : Nat) : Nat := msg_bin &&& (0x00FF0000 >>> (4 * 4))

/-- ir.py:177, same precedence. -/
def command_of (msg_bin : Nat) : Nat := msg_bin &&& (0x0000FF00 >>> (2 * 4))

/-- ir.py:178. -/
def command_inverse_of (msg_bin : Nat) : Nat := msg_bin &&& 0x000000FF

/-- The validation tail of `_pulses_to_binary_message` (ir.py:174-186).
`address_of` and `address_inverse_of` are computed by the source but appear
only in the first error's message text; the two `if` conditions are the
source's literal duplicated `command == ~command_inverse` comparisons. -/
def validate_message (msg_bin : Nat) : Except PyError Nat :=
  if (command_of msg_bin : Int) = pyInvert (command_inverse_of msg_bin : Int) then
    .error .checksumAddress
  else if (command_of msg_bin : Int) = pyInvert (command_inverse_of msg_bin : Int) then
    .error .checksumCommand
  else .ok msg_bin

/-- Outcome of `_pulses_to_binary_message` (ir.py:154-186): a returned
message, `None` after a sanitize failure was caught and logged inside the
function (ir.py:156-160), or a `ValueError` propagating to the caller. -/
inductive DecodeResult where
  | msg (n : Nat)
  | sanitizeFailed (e : PyError)
  | raised (e : PyError)
deriving DecidableEq, Repr

/-- `IR_Receiver._pulses_to_binary_message` (ir.py:154-186).  `int("", 2)`
would raise a `ValueError`, modelled by `emptyBitString` (reachable only for
inputs `_sanitize_pulses` would not return). -/
def pulses_to_binary_message (pulses : List Pulse) : DecodeResult :=
  match sanitize_pulses pulses with
  | .error e => .sanitizeFailed e
  | .ok data =>
    match extractBits data with
    | .error e => .raised e
    | .ok bits =>
      if bits.isEmpty then .raised .emptyBitString
      else
        match validate_message (bitsToNat bits) with
        | .error e => .raised e
        | .ok n => .msg n

/-- One outcome the read loop surfaces to its caller: `log.info` of a decoded
message (ir.py:101) or `log.error` of a decode failure (ir.py:98, ir.py:159). -/
inductive Emission where
  | decoded (n : Nat)
  | decodeError (e : PyError)
deriving DecidableEq, Repr

/-- The emissions of one finalization of a non-empty buffer (ir.py:93-102):
a sanitize failure is logged inside `_pulses_to_binary_message`, any other
`ValueError` is logged by `track_pulse`'s handler, and a returned message is
logged only if truthy (`if message:` at ir.py:100), so message value 0
produces no emission. -/
def flushEmission (buf : List Pulse) : Option Emission :=
  match pulses_to_binary_message buf with
  | .msg n => if n = 0 then none else some (.decoded n)
  | .sanitizeFailed e => some (.decodeError e)
  | .raised e => some (.decodeError e)

/-- The guard of `track_pulse`'s first branch (ir.py:89-90): the sample is a
pulse (not a sense timeout) whose duration lies strictly between
`MIN_PULSE_READ` and `MAX_PULSE_READ`. -/
def isValidRead (pulse : Option Pulse) : Bool :=
  match pulse with
  | none => false
  | some p => decide (MIN_PULSE_READ < p.length ∧ p.length < MAX_PULSE_READ)

/-- `track_pulse` (ir.py:87-102); `pulse = none` models a sense timeout.
Returns the new buffer together with the emission of this step, if any. -/
def track_pulse (buf : List Pulse) (pulse : Option Pulse) :
    List Pulse × Option Emission :=
  match pulse with
  | some p =>
    if MIN_PULSE_READ < p.length ∧ p.length < MAX_PULSE_READ then (buf ++ [p], none)
    else if 0 < buf.length then ([], flushEmission buf)
    else (buf, none)
  | none =>
    if 0 < buf.length then ([], flushEmission buf) else (buf, none)

/-- Feeding a list of samples through `track_pulse`, collecting emissions. -/
def track_run (buf : List Pulse) : List (Option Pulse) → List Pulse × List Emission
  | [] => (buf, [])
  | s :: rest =>
    ((track_run (track_pulse buf s).1 rest).1,
      (track_pulse buf s).2.toList ++ (track_run (track_pulse buf s).1 rest).2)

/-- The nominal space duration encoding one bit: small gap for 0, large for 1. -/
def bitSpaceLen (b : Bool) : ℚ := if b then NEC_LARGE_GAP else NEC_SMALL_GAP

/-- The burst/space pulse pairs of a synthetic NEC frame body, one pair per
bit, each burst 562.5 µs and each space 562.5 µs (bit 0) or 1687.5 µs (bit 1). -/
def encodeBits : List Bool → List Pulse
  | [] => []
  | b :: bs => ⟨NEC_SMALL_GAP, false⟩ :: ⟨bitSpaceLen b, true⟩ :: encodeBits bs

/-- MSB-first `n`-bit unfolding of `w` (the value represented is `w % 2 ^ n`). -/
def natBits : Nat → Nat → List Bool
  | 0, _ => []
  | n + 1, w => natBits n (w / 2) ++ [decide (w % 2 = 1)]

/-- A synthetic valid 68-pulse NEC frame for word `w`: leading idle space
(200 µs), 9000 µs leading burst, 4500 µs leading space, 32 burst/space bit
pairs, trailing 562.5 µs burst. -/
def necFrame (w : Nat) : List Pulse :=
  ⟨200 * 0.000001, true⟩ :: ⟨9000 * 0.000001, false⟩ :: ⟨4500 * 0.000001, true⟩ ::
    (encodeBits (natBits 32 w) ++ [⟨NEC_SMALL_GAP, false⟩])

/-- Strict burst/space alternation of a stripped frame body: even positions
bursts, odd positions spaces, even length. -/
def altPattern : List Pulse → Bool
  | [] => true
  | [_] => false
  | a :: b :: rest => (!a.is_space && b.is_space) && altPattern rest

lemma is_small_gap_iff (p : Pulse) :
    p.is_small_gap = true ↔ |p.length - NEC_SMALL_GAP| ≤ GAP_TOLERANCE := by
  simp only [Pulse.is_small_gap, decide_eq_true_eq, abs_le]
  constructor <;> rintro ⟨h1, h2⟩ <;> constructor <;> linarith

lemma is_large_gap_iff (p : Pulse) :
    p.is_large_gap = true ↔ |p.length - NEC_LARGE_GAP| ≤ GAP_TOLERANCE := by
  simp only [Pulse.is_large_gap, decide_eq_true_eq, abs_le]
  constructor <;> rintro ⟨h1, h2⟩ <;> constructor <;> linarith

lemma gap_windows_disjoint (d : ℚ) :
    ¬(|d - NEC_SMALL_GAP| ≤ GAP_TOLERANCE ∧ |d - NEC_LARGE_GAP| ≤ GAP_TOLERANCE) := by
  rintro ⟨h1, h2⟩
  rw [abs_le] at h1 h2
  have hs : NEC_SMALL_GAP = 1125 / 2000000 := by norm_num [NEC_SMALL_GAP]
  have hl : NEC_LARGE_GAP = 3375 / 2000000 := by norm_num [NEC_LARGE_GAP]
  have ht : GAP_TOLERANCE = 540 / 2000000 := by norm_num [GAP_TOLERANCE]
  rw [hs, ht] at h1
  rw [hl, ht] at h2
  linarith [h1.2, h2.1]

lemma small_gap_at_nominal : Pulse.is_small_gap ⟨NEC_SMALL_GAP, true⟩ = true := by
  rw [is_small_gap_iff]
  simp [GAP_TOLERANCE]
  norm_num

lemma large_gap_at_nominal : Pulse.is_large_gap ⟨NEC_LARGE_GAP, true⟩ = true := by
  rw [is_large_gap_iff]
  simp [GAP_TOLERANCE]
  norm_num

/-- C5: `classify` is a total three-way classification with the two tolerance
windows `|d − 562.5µs| ≤ 270µs` (SmallGap) and `|d − 1687.5µs| ≤ 270µs`
(LargeGap), the windows are disjoint, and the three sample points classify as
stated. -/
theorem classify_characterization (d : ℚ) :
    (classify d = .SmallGap ↔ |d - NEC_SMALL_GAP| ≤ GAP_TOLERANCE) ∧
    (classify d = .LargeGap ↔ |d - NEC_LARGE_GAP| ≤ GAP_TOLERANCE) ∧
    (classify d = .Neither ↔
      ¬(|d - NEC_SMALL_GAP| ≤ GAP_TOLERANCE) ∧ ¬(|d - NEC_LARGE_GAP| ≤ GAP_TOLERANCE)) ∧
    ¬(|d - NEC_SMALL_GAP| ≤ GAP_TOLERANCE ∧ |d - NEC_LARGE_GAP| ≤ GAP_TOLERANCE) ∧
    classify NEC_SMALL_GAP = .SmallGap ∧
    classify NEC_LARGE_GAP = .LargeGap ∧
    classify (1000 * 0.000001) = .Neither := by
  have hdisj := gap_windows_disjoint d
  have hsmall := is_small_gap_iff ⟨d, true⟩
  have hlarge := is_large_gap_iff ⟨d, true⟩
  refine ⟨?_, ?_, ?_, hdisj, ?_, ?_, ?_⟩
  · unfold classify
    split_ifs with h1 h2
    · simpa using hsmall.mp h1
    · simp only [reduceCtorEq, false_iff]
      intro habs
      exact h1 (hsmall.mpr habs)
    · simp only [reduceCtorEq, false_iff]
      intro habs
      exact h1 (hsmall.mpr habs)
  · unfold classify
    split_ifs with h1 h2
    · simp only [reduceCtorEq, false_iff]
      intro habs
      exact hdisj ⟨hsmall.mp h1, habs⟩
    · simpa using hlarge.mp h2
    · simp only [reduceCtorEq, false_iff]
      intro habs
      exact h2 (hlarge.mpr habs)
  · unfold classify
    split_ifs with h1 h2
    · simp only [reduceCtorEq, false_iff]
      rintro ⟨ha, _⟩
      exact ha (hsmall.mp h1)
    · simp only [reduceCtorEq, false_iff]
      rintro ⟨_, hb⟩
      exact hb (hlarge.mp h2)
    · simp only [true_iff]
      constructor
      · intro habs
        exact h1 (hsmall.mpr habs)
      · intro habs
        exact h2 (hlarge.mpr habs)
  · unfold classify
    split_ifs with h1 h2
    · rfl
    · exact absurd small_gap_at_nominal h1
    · exact absurd small_gap_at_nominal h1
  · have hns : Pulse.is_small_gap ⟨NEC_LARGE_GAP, true⟩ = false := by
      cases habs : Pulse.is_small_gap ⟨NEC_LARGE_GAP, true⟩ with
      | false => rfl
      | true =>
        exact absurd ⟨(is_small_gap_iff ⟨NEC_LARGE_GAP, true⟩).mp habs,
          (is_large_gap_iff ⟨NEC_LARGE_GAP, true⟩).mp large_gap_at_nominal⟩
          (gap_windows_disjoint NEC_LARGE_GAP)
    unfold classify
    split_ifs with h1 h2
    · exact absurd h1 (by simp [hns])
    · rfl
    · exact absurd large_gap_at_nominal h2
  · have h1 : Pulse.is_small_gap ⟨1000 * 0.000001, true⟩ = false := by
      cases habs : Pulse.is_small_gap ⟨1000 * 0.000001, true⟩ with
      | false => rfl
      | true =>
        have h := (is_small_gap_iff ⟨1000 * 0.000001, true⟩).mp habs
        rw [abs_le] at h
        have h2 := h.2
        norm_num [NEC_SMALL_GAP, GAP_TOLERANCE] at h2
    have h2 : Pulse.is_large_gap ⟨1000 * 0.000001, true⟩ = false := by
      cases habs : Pulse.is_large_gap ⟨1000 * 0.000001, true⟩ with
      | false => rfl
      | true =>
        have h := (is_large_gap_iff ⟨1000 * 0.000001, true⟩).mp habs
        rw [abs_le] at h
        have h1 := h.1
        norm_num [NEC_LARGE_GAP, GAP_TOLERANCE] at h1
    unfold classify
    split_ifs with ha hb
    · exact absurd ha (by simp [h1])
    · exact absurd hb (by simp [h2])
    · rfl

lemma command_checksum_comparison_never_true (n : Nat) :
    ¬((command_of n : Int) = pyInvert (command_inverse_of n : Int)) := by
  intro h
  have h1 : (0 : Int) ≤ (command_of n : Int) := Int.ofNat_nonneg _
  have h2 : (0 : Int) ≤ (command_inverse_of n : Int) := Int.ofNat_nonneg _
  unfold pyInvert at h
  omega

/-- C1 (code bug): ir.py:179-184 compares the nonnegative `command` to
Python's `~command_inverse`, which is always negative, so message validation
never rejects any word with a checksum error; in particular the word 0, whose
command byte XOR command-inverse byte is 0 ≠ 0xFF, is accepted. -/
theorem validate_message_never_rejects :
    (∀ msg_bin : Nat, validate_message msg_bin = .ok msg_bin) ∧
    ((((0 : Nat) >>> 8) &&& 0xFF) ^^^ ((0 : Nat) &&& 0xFF) ≠ 0xFF) ∧
    validate_message 0 = .ok 0 := by
  have key := command_checksum_comparison_never_true
  refine ⟨?_, by decide, ?_⟩
  · intro n
    unfold validate_message
    rw [if_neg (key n), if_neg (key n)]
  · unfold validate_message
    rw [if_neg (key 0), if_neg (key 0)]

/-- C2 (code bug): because Python's `>>` binds tighter than `&`, every
derived field of ir.py:175-178 equals the low byte `msg_bin & 0xFF`; in
particular for the word 0x12345678 the address field is 0x78, whereas bits
31-24 of the word are 0x12. -/
theorem derived_fields_are_low_byte :
    (∀ w : Nat, address_of w = w &&& 0xFF ∧ address_inverse_of w = w &&& 0xFF ∧
      command_of w = w &&& 0xFF ∧ command_inverse_of w = w &&& 0xFF) ∧
    address_of 0x12345678 = 0x78 ∧
    ((0x12345678 : Nat) >>> 24) &&& 0xFF = 0x12 ∧
    address_of 0x12345678 ≠ ((0x12345678 : Nat) >>> 24) &&& 0xFF := by
  refine ⟨?_, by decide, by decide, by decide⟩
  intro w
  exact ⟨rfl, rfl, rfl, rfl⟩

/-- C6 counterexample: on the empty pulse sequence, ir.py:128 evaluates
`pulses[0]` and raises `IndexError`, a different exception kind from the
MalformedFraming `ValueError`. -/
theorem sanitize_empty_raises_index_error :
    sanitize_pulses [] = .error .indexError ∧
    PyError.indexError ≠ PyError.malformedFraming := ⟨rfl, by decide⟩

/-- C6 (amended): for every non-empty pulse sequence whose first pulse is not
a space, `_sanitize_pulses` fails with the MalformedFraming error; the empty
sequence instead raises an index error of a different kind. -/
theorem sanitize_first_not_space (p : Pulse) (rest : List Pulse)
    (h : p.is_space = false) :
    sanitize_pulses (p :: rest) = .error .malformedFraming := by
  simp only [sanitize_pulses, h]
  rw [if_pos (by simp)]

/-- Witness for C6's amended claim at the one-pulse burst sequence. -/
theorem sanitize_first_not_space_witness :
    sanitize_pulses [⟨1, false⟩] = .error .malformedFraming :=
  sanitize_first_not_space ⟨1, false⟩ [] rfl

/-- C7: when the first pulse is a space and the pulse count is not 68,
`_sanitize_pulses` fails with WrongFrameLength carrying the actual count;
the length test precedes the alternation and duration checks, so this holds
for arbitrary remaining pulses. -/
theorem sanitize_wrong_length (p : Pulse) (rest : List Pulse)
    (hs : p.is_space = true) (hl : (p :: rest).length ≠ 68) :
    sanitize_pulses (p :: rest) = .error (.wrongFrameLength (p :: rest).length) := by
  simp only [sanitize_pulses]
  rw [if_neg (show ¬(p.is_space ≠ true) from fun hne => hne hs), if_pos hl]

/-- Witness for C7 at a one-pulse frame: the reported actual count is 1. -/
theorem sanitize_wrong_length_witness :
    sanitize_pulses [⟨1, true⟩] = .error (.wrongFrameLength 1) :=
  sanitize_wrong_length ⟨1, true⟩ [] rfl (by decide)

/-- C8: with an empty buffer, an out-of-range or timeout sample is ignored
(no emission, buffer unchanged); an in-range pulse is appended to the buffer
in every state; and a run of out-of-range noise samples starting from the
empty buffer never produces an emission. -/
theorem idle_noise_ignored (s : Option Pulse) (buf : List Pulse) (p : Pulse)
    (noise : List (Option Pulse))
    (hs : isValidRead s = false)
    (hp : MIN_PULSE_READ < p.length ∧ p.length < MAX_PULSE_READ)
    (hnoise : ∀ x ∈ noise, isValidRead x = false) :
    track_pulse [] s = ([], none) ∧
    track_pulse buf (some p) = (buf ++ [p], none) ∧
    track_run [] noise = ([], []) := by
  have hstep : ∀ t : Option Pulse, isValidRead t = false → track_pulse [] t = ([], none) := by
    intro t ht
    cases t with
    | none => rfl
    | some q =>
      have hq : ¬(MIN_PULSE_READ < q.length ∧ q.length < MAX_PULSE_READ) := by
        simp only [isValidRead, decide_eq_false_iff_not] at ht
        exact ht
      simp only [track_pulse]
      rw [if_neg hq]
      rfl
  have hrun : ∀ l : List (Option Pulse),
      (∀ x ∈ l, isValidRead x = false) → track_run [] l = ([], []) := by
    intro l
    induction l with
    | nil => intro _; rfl
    | cons hd tl ih =>
      intro hall
      have h1 : track_pulse [] hd = ([], none) := hstep hd (hall hd (List.mem_cons_self hd tl))
      have h2 := ih (fun x hx => hall x (List.mem_cons_of_mem hd hx))
      simp [track_run, h1, h2]
  refine ⟨hstep s hs, ?_, hrun noise hnoise⟩
  simp only [track_pulse]
  rw [if_pos hp]

lemma one_second_space_invalid : isValidRead (some ⟨1, true⟩) = false := by
  simp only [isValidRead, decide_eq_false_iff_not]
  rintro ⟨-, h2⟩
  norm_num [MAX_PULSE_READ] at h2

lemma five_hundred_usec_in_range :
    MIN_PULSE_READ < (Pulse.mk (1/2000) false).length ∧
    (Pulse.mk (1/2000) false).length < MAX_PULSE_READ := by
  constructor <;> norm_num [MIN_PULSE_READ, MAX_PULSE_READ]

lemma noise_run_all_invalid :
    ∀ x ∈ [some (Pulse.mk 1 true), none], isValidRead x = false := by
  intro x hx
  rcases List.mem_cons.mp hx with h | h
  · rw [h]; exact one_second_space_invalid
  · rw [List.mem_singleton.mp h]; rfl

/-- Witness for C8: a 1 s space is ignored from the empty buffer, a 500 µs
burst is appended, and a two-sample noise run emits nothing. -/
theorem idle_noise_ignored_witness :
    track_pulse [] (some ⟨1, true⟩) = ([], none) ∧
    track_pulse [] (some ⟨1/2000, false⟩) = ([] ++ [⟨1/2000, false⟩], none) ∧
    track_run [] [some ⟨1, true⟩, none] = ([], []) :=
  idle_noise_ignored (some ⟨1, true⟩) [] ⟨1/2000, false⟩ [some ⟨1, true⟩, none]
    one_second_space_invalid five_hundred_usec_in_range noise_run_all_invalid

lemma natBits_length (n w : Nat) : (natBits n w).length = n := by
  induction n generalizing w with
  | zero => rfl
  | succ k ih => simp [natBits, ih]

lemma encodeBits_length (bs : List Bool) : (encodeBits bs).length = 2 * bs.length := by
  induction bs with
  | nil => rfl
  | cons b rest ih => simp [encodeBits, ih]; ring

lemma dataPulses_length (w : Nat) : (encodeBits (natBits 32 w)).length = 64 := by
  rw [encodeBits_length, natBits_length]

lemma is_small_gap_irrel_space (l : ℚ) (s s' : Bool) :
    Pulse.is_small_gap ⟨l, s⟩ = Pulse.is_small_gap ⟨l, s'⟩ := rfl

lemma is_large_gap_irrel_space (l : ℚ) (s s' : Bool) :
    Pulse.is_large_gap ⟨l, s⟩ = Pulse.is_large_gap ⟨l, s'⟩ := rfl

lemma small_gap_at_large_nominal :
    Pulse.is_small_gap ⟨NEC_LARGE_GAP, true⟩ = false := by
  cases habs : Pulse.is_small_gap ⟨NEC_LARGE_GAP, true⟩ with
  | false => rfl
  | true =>
    exact absurd ⟨(is_small_gap_iff ⟨NEC_LARGE_GAP, true⟩).mp habs,
      (is_large_gap_iff ⟨NEC_LARGE_GAP, true⟩).mp large_gap_at_nominal⟩
      (gap_windows_disjoint NEC_LARGE_GAP)

lemma burst_is_small_gap : Pulse.is_small_gap ⟨NEC_SMALL_GAP, false⟩ = true :=
  (is_small_gap_irrel_space NEC_SMALL_GAP false true).trans small_gap_at_nominal

lemma bitSpace_is_valid (b : Bool) :
    Pulse.is_small_gap ⟨bitSpaceLen b, true⟩ = true ∨
    Pulse.is_large_gap ⟨bitSpaceLen b, true⟩ = true := by
  cases b with
  | false => exact Or.inl small_gap_at_nominal
  | true => exact Or.inr large_gap_at_nominal

lemma altPattern_encodeBits (bs : List Bool) : altPattern (encodeBits bs) = true := by
  induction bs with
  | nil => rfl
  | cons b rest ih => simp [encodeBits, altPattern, ih]

lemma checkBursts_encodeBits : ∀ (idx : Nat) (bs : List Bool),
    checkBursts idx (encodeBits bs) = .ok ()
  | _, [] => rfl
  | idx, b :: bs => by
    simp only [encodeBits, checkBursts]
    rw [if_pos burst_is_small_gap]
    exact checkBursts_encodeBits (idx + 2) bs

lemma checkSpaces_encodeBits : ∀ (idx : Nat) (bs : List Bool),
    checkSpaces idx (encodeBits bs) = .ok ()
  | _, [] => rfl
  | idx, b :: bs => by
    simp only [encodeBits, checkSpaces]
    rw [if_pos (bitSpace_is_valid b)]
    exact checkSpaces_encodeBits (idx + 2) bs

lemma bitSpaceLen_false : bitSpaceLen false = NEC_SMALL_GAP := rfl

lemma bitSpaceLen_true : bitSpaceLen true = NEC_LARGE_GAP := rfl

lemma extractBits_encodeBits : ∀ bs : List Bool,
    extractBits (encodeBits bs) = .ok bs
  | [] => rfl
  | b :: bs => by
    have ih := extractBits_encodeBits bs
    cases b with
    | false =>
      simp only [encodeBits, extractBits, bitSpaceLen_false]
      rw [if_pos small_gap_at_nominal, ih]
    | true =>
      simp only [encodeBits, extractBits, bitSpaceLen_true]
      rw [if_neg (by simp [small_gap_at_large_nominal]), if_pos large_gap_at_nominal, ih]

lemma checkAlt_body : ∀ (data : List Pulse) (s t : Pulse) (idx : Nat),
    s.is_space = true → t.is_space = false → altPattern data = true →
    checkAlt idx (s :: (data ++ [t])) = .ok ()
  | [], s, t, idx, hs, ht, _ => by
    simp only [List.nil_append, checkAlt]
    rw [if_pos ⟨hs, ht⟩]
  | [a], _, _, _, _, _, halt => by exact absurd halt (by simp [altPattern])
  | a :: b :: rest, s, t, idx, hs, ht, halt => by
    simp only [altPattern, Bool.and_eq_true, Bool.not_eq_true'] at halt
    obtain ⟨⟨ha, hb⟩, hrest⟩ := halt
    simp only [List.cons_append, checkAlt]
    rw [if_pos ⟨hs, ha⟩]
    have := checkAlt_body rest b t (idx + 2) hb ht hrest
    simpa using this

lemma bitsToNat_append (bs : List Bool) (b : Bool) :
    bitsToNat (bs ++ [b]) = 2 * bitsToNat bs + (if b then 1 else 0) := by
  simp [bitsToNat, List.foldl_append]

lemma bitsToNat_natBits (n w : Nat) : bitsToNat (natBits n w) = w % 2 ^ n := by
  induction n generalizing w with
  | zero => simp [natBits, bitsToNat, Nat.mod_one]
  | succ k ih =>
    rw [natBits, bitsToNat_append, ih]
    have hb : (if decide (w % 2 = 1) then 1 else 0) = w % 2 := by
      rcases Nat.mod_two_eq_zero_or_one w with h | h <;> simp [h]
    rw [hb, pow_succ, mul_comm (2 ^ k) 2, Nat.mod_mul]
    omega

lemma sanitize_ok_of_frame_shape (d0 d1 d2 d3 : ℚ) (data : List Pulse)
    (hlen : data.length = 64)
    (halt : altPattern data = true)
    (hb : checkBursts 0 data = .ok ())
    (hsp : checkSpaces 0 data = .ok ()) :
    sanitize_pulses
      (⟨d0, true⟩ :: ⟨d1, false⟩ :: ⟨d2, true⟩ :: (data ++ [⟨d3, false⟩])) = .ok data := by
  have hlenfull :
      (⟨d0, true⟩ :: ⟨d1, false⟩ :: ⟨d2, true⟩ :: (data ++ [⟨d3, false⟩]) :
        List Pulse).length = 68 := by
    simp [hlen]
  have halts :
      checkAlt 0 (⟨d0, true⟩ :: ⟨d1, false⟩ :: ⟨d2, true⟩ :: (data ++ [⟨d3, false⟩])) =
        .ok () := by
    simp only [checkAlt]
    rw [if_pos (by simp)]
    exact checkAlt_body data ⟨d2, true⟩ ⟨d3, false⟩ 2 rfl rfl halt
  have hstrip :
      (((⟨d0, true⟩ :: ⟨d1, false⟩ :: ⟨d2, true⟩ :: (data ++ [⟨d3, false⟩]) :
        List Pulse)).drop 3).dropLast = data := by
    simp [List.dropLast_concat]
  simp only [sanitize_pulses, hstrip, halts, hb, hsp]
  rw [if_neg (show ¬((⟨d0, true⟩ : Pulse).is_space ≠ true) from fun h => h rfl)]
  rw [if_neg (fun h => h hlenfull)]

lemma validate_message_ok (n : Nat) : validate_message n = .ok n := by
  unfold validate_message
  rw [if_neg (command_checksum_comparison_never_true n),
    if_neg (command_checksum_comparison_never_true n)]

lemma sanitize_necFrame (w : Nat) :
    sanitize_pulses (necFrame w) = .ok (encodeBits (natBits 32 w)) := by
  unfold necFrame
  exact sanitize_ok_of_frame_shape _ _ _ _ _ (dataPulses_length w)
    (altPattern_encodeBits _) (checkBursts_encodeBits 0 _) (checkSpaces_encodeBits 0 _)

lemma natBits32_ne_nil (w : Nat) : (natBits 32 w).isEmpty = false := by
  cases h : natBits 32 w with
  | nil =>
    have hl := natBits_length 32 w
    rw [h] at hl
    simp at hl
  | cons a l => rfl

lemma decode_necFrame (w : Nat) (hw : w < 2 ^ 32) :
    pulses_to_binary_message (necFrame w) = .msg w := by
  have h1 := sanitize_necFrame w
  have h2 := extractBits_encodeBits (natBits 32 w)
  have h3 := natBits32_ne_nil w
  have h4 : bitsToNat (natBits 32 w) = w := by
    rw [bitsToNat_natBits]
    exact Nat.mod_eq_of_lt hw
  simp [pulses_to_binary_message, h1, h2, h3, h4, validate_message_ok]

/-- C3: a synthetic valid 68-pulse NEC frame (leading idle space, 9000 µs
burst, 4500 µs space, 32 burst/space bit pairs with burst 562.5 µs and space
562.5 µs for bit 0 or 1687.5 µs for bit 1, trailing 562.5 µs burst) encoding
a 32-bit word that satisfies the command checksum decodes through the full
pipeline to exactly that word. -/
theorem necFrame_roundtrip (w : Nat) (hw : w < 2 ^ 32)
    (_hchk : ((w >>> 8) &&& 0xFF) ^^^ (w &&& 0xFF) = 0xFF) :
    pulses_to_binary_message (necFrame w) = .msg w :=
  decode_necFrame w hw

/-- Witness for C3 at the soundbar power-toggle word 0x00FF02FD
(command 0x02, command inverse 0xFD, XOR 0xFF). -/
theorem necFrame_roundtrip_witness :
    ((0x00FF02FD : Nat) < 2 ^ 32) ∧
    ((((0x00FF02FD : Nat) >>> 8) &&& 0xFF) ^^^ ((0x00FF02FD : Nat) &&& 0xFF) = 0xFF) ∧
    pulses_to_binary_message (necFrame 0x00FF02FD) = .msg 0x00FF02FD :=
  ⟨by decide, by decide, necFrame_roundtrip 0x00FF02FD (by decide) (by decide)⟩

/-- C4 (code bug): a finalized frame is not always emitted.  The valid frame
encoding the word 0 is a non-empty buffer; finalizing it with an out-of-range
sample decodes it to the message 0, but `if message:` (ir.py:100) is false
for 0, so the flush produces no emission at all. -/
theorem zero_message_silently_dropped :
    necFrame 0 ≠ [] ∧
    isValidRead (some ⟨1, true⟩) = false ∧
    pulses_to_binary_message (necFrame 0) = .msg 0 ∧
    track_pulse (necFrame 0) (some ⟨1, true⟩) = ([], none) := by
  have hdec : pulses_to_binary_message (necFrame 0) = .msg 0 :=
    decode_necFrame 0 (by norm_num)
  have hq : ¬(MIN_PULSE_READ < ((⟨1, true⟩ : Pulse)).length ∧
      ((⟨1, true⟩ : Pulse)).length < MAX_PULSE_READ) := by
    rintro ⟨-, h2⟩
    norm_num [MAX_PULSE_READ] at h2
  have hlen : 0 < (necFrame 0).length := by
    simp [necFrame, dataPulses_length]
  refine ⟨by simp [necFrame], one_second_space_invalid, hdec, ?_⟩
  simp only [track_pulse]
  rw [if_neg hq, if_pos hlen]
  simp [flushEmission, hdec]

/-- C10: frame validation never inspects the durations of the three leading
framing pulses or of the trailing burst: any 68-pulse sequence opening with a
space, alternating space/burst, whose 64 stripped data pulses pass the
burst/space classification checks, is accepted with the four framing
durations `d0 d1 d2 d3` arbitrary. -/
theorem sanitize_ignores_framing_durations (d0 d1 d2 d3 : ℚ) (data : List Pulse)
    (hlen : data.length = 64)
    (halt : altPattern data = true)
    (hb : checkBursts 0 data = .ok ())
    (hsp : checkSpaces 0 data = .ok ()) :
    sanitize_pulses
      (⟨d0, true⟩ :: ⟨d1, false⟩ :: ⟨d2, true⟩ :: (data ++ [⟨d3, false⟩])) = .ok data :=
  sanitize_ok_of_frame_shape d0 d1 d2 d3 data hlen halt hb hsp

/-- Witness for C10: a frame whose four framing pulses all last a nonsensical
1 second is still accepted, its 64 data pulses being well-formed. -/
theorem sanitize_ignores_framing_durations_witness :
    sanitize_pulses ((⟨1, true⟩ : Pulse) :: ⟨1, false⟩ :: ⟨1, true⟩ ::
      (encodeBits (natBits 32 0) ++ [⟨1, false⟩])) = .ok (encodeBits (natBits 32 0)) :=
  sanitize_ignores_framing_durations 1 1 1 1 (encodeBits (natBits 32 0))
    (dataPulses_length 0) (altPattern_encodeBits (natBits 32 0))
    (checkBursts_encodeBits 0 (natBits 32 0)) (checkSpaces_encodeBits 0 (natBits 32 0))

lemma extractBits_ok_of_checkSpaces : ∀ (idx : Nat) (l : List Pulse),
    checkSpaces idx l = .ok () → ∃ bits, extractBits l = .ok bits
  | _, [], _ => ⟨[], rfl⟩
  | _, [_], _ => ⟨[], rfl⟩
  | idx, a :: b :: rest, h => by
    simp only [checkSpaces] at h
    by_cases hcond : b.is_small_gap = true ∨ b.is_large_gap = true
    · have hrest : checkSpaces (idx + 2) rest = .ok () := by
        rwa [if_pos hcond] at h
      obtain ⟨bits, hbits⟩ := extractBits_ok_of_checkSpaces (idx + 2) rest hrest
      by_cases hsb : b.is_small_gap = true
      · refine ⟨false :: bits, ?_⟩
        simp only [extractBits]
        rw [if_pos hsb, hbits]
      · have hlb : b.is_large_gap = true := hcond.resolve_left hsb
        refine ⟨true :: bits, ?_⟩
        simp only [extractBits]
        rw [if_neg hsb, if_pos hlb, hbits]
    · rw [if_neg hcond] at h
      cases h

lemma sanitize_ok_spaces (pulses data : List Pulse)
    (h : sanitize_pulses pulses = .ok data) :
    checkSpaces 0 data = .ok () := by
  rcases pulses with _ | ⟨p0, rest⟩
  · cases h
  · simp only [sanitize_pulses] at h
    by_cases h1 : p0.is_space ≠ true
    · rw [if_pos h1] at h
      cases h
    · rw [if_neg h1] at h
      by_cases h2 : (p0 :: rest).length ≠ 68
      · rw [if_pos h2] at h
        cases h
      · rw [if_neg h2] at h
        cases halt : checkAlt 0 (p0 :: rest) with
        | error e =>
          rw [halt] at h
          cases h
        | ok u =>
          cases u
          rw [halt] at h
          cases hb : checkBursts 0 (((p0 :: rest).drop 3).dropLast) with
          | error e =>
            rw [hb] at h
            cases h
          | ok u2 =>
            cases u2
            rw [hb] at h
            cases hsp : checkSpaces 0 (((p0 :: rest).drop 3).dropLast) with
            | error e =>
              rw [hsp] at h
              cases h
            | ok u3 =>
              cases u3
              rw [hsp] at h
              cases h
              exact hsp

/-- C9: for every pulse sequence accepted by `_sanitize_pulses`, the bit
loop of `_pulses_to_binary_message` succeeds on the returned data pulses:
every odd-indexed data pulse classifies as a small or large gap, so the
`Pulse pattern malformed` branch is unreachable. -/
theorem extract_never_fails_on_sanitized (pulses data : List Pulse)
    (h : sanitize_pulses pulses = .ok data) :
    ∃ bits, extractBits data = .ok bits :=
  extractBits_ok_of_checkSpaces 0 data (sanitize_ok_spaces pulses data h)

/-- Witness for C9 at the synthetic frame for the word 0. -/
theorem extract_never_fails_witness :
    ∃ bits, extractBits (encodeBits (natBits 32 0)) = .ok bits :=
  extract_never_fails_on_sanitized (necFrame 0) (encodeBits (natBits 32 0))
    (sanitize_necFrame 0)
